import Mathlib

/-!
Shallow embedding of the EFT fit parser and doctrine-comparison engine of the
Waitlist_Dev repository (src/Waitlist_Dev/waitlist/fit_parser.py, with the data
model from src/Waitlist_Dev/pilot/models.py and src/Waitlist_Dev/waitlist/models.py).

Conventions of the embedding:
* Database rows become records; the read-only database snapshot visible to one
  call is a `Db` value (lists of rows, iterated in store order).
* Python `Counter`/dict values with string keys `str(type_id)` are modelled as
  association lists `List (Nat × Nat)` in insertion order; `str`/`int` key
  conversions are dropped because `str` is injective on the ids involved.
* Python sets of ids (`allowed_ids_for_slot`) are modelled as duplicate-free
  lists in insertion order; the source never relies on a particular set order
  (the reference spec leaves the order among substitutes unspecified).
* Dogma attribute values (floats in the store) are modelled as integers; the
  engine only compares them with `<` / `>`.
* Fallible functions return `Except` with the source's error message;
  `ValueError` in the source corresponds to `Except.error`.
-/

namespace Waitlist

/-- Slot classification of a module (`EveType.slot_type` column:
`high | mid | low | rig | subsystem | drone`, nullable). -/
inductive SlotType
  | high
  | mid
  | low
  | rig
  | subsystem
  | drone
deriving DecidableEq, Repr

/-- The `final_slot` strings assigned by the parser. -/
inductive FinalSlot
  | ship
  | high
  | mid
  | low
  | rig
  | subsystem
  | drone
  | cargo
  | blankLine
deriving DecidableEq, Repr

/-- One row of `pilot.models.EveType` together with its pre-cached dogma
attributes (the source attaches the cache `_attribute_cache` to each row before
comparison; `attrs` is that cache). Only the fields the core reads are kept. -/
structure EveType where
  typeId : Nat
  name : List Char
  slotType : Option SlotType
  groupId : Option Nat
  subsystemSlots : Option Nat
  attrs : List (Nat × Int)
deriving DecidableEq, Repr

/-- `ShipFit.FitStatus` values the comparison engine can produce. -/
inductive FitStatus
  | PENDING
  | APPROVED
deriving DecidableEq, Repr

/-- `ShipFit.FitCategory` choices. -/
inductive FitCategory
  | NONE
  | DPS
  | LOGI
  | SNIPER
  | MAR_DPS
  | MAR_SNIPER
  | OTHER
deriving DecidableEq, Repr

/-- A `waitlist.models.DoctrineFit` row: target hull, category and the decoded
`fit_items_json` dictionary (`get_fit_items()`), in JSON object order. -/
structure DoctrineFit where
  shipTypeId : Nat
  category : FitCategory
  requiredItems : List (Nat × Nat)
deriving DecidableEq, Repr

/-- A `waitlist.models.ItemComparisonRule` row; `shipTypeId = none` is a global
rule, `some s` a ship-specific rule. -/
structure ItemComparisonRule where
  groupId : Nat
  attributeId : Nat
  higherIsBetter : Bool
  shipTypeId : Option Nat
deriving DecidableEq, Repr

/-- A `waitlist.models.FitSubstitutionGroup` row (manually curated substitutes
for a base item). The comparison engine of the final source no longer reads
this table; the record exists so that claims about it can be stated. -/
structure FitSubstitutionGroup where
  baseItemId : Nat
  substituteItemIds : List Nat
deriving DecidableEq, Repr

/-- A consistent read snapshot of the externally owned data: the item catalog
(`EveType` rows), the `EveGroup` table reduced to groupId → categoryId, the
doctrine store and the comparison-rule store. -/
structure Db where
  types : List EveType
  groups : List (Nat × Nat)
  doctrines : List DoctrineFit
  rules : List ItemComparisonRule
deriving DecidableEq, Repr

/-- Quantity counters (`Counter`/dict keyed by type id), insertion ordered. -/
abbrev Pool := List (Nat × Nat)

/-- `EveType.objects.get(type_id=...)`: id lookup in the catalog. The source
restricts its bulk `type_map` to the submitted and doctrine ids, but it only
ever looks up ids from those sets, so lookup in the full catalog is
extensionally the same. -/
def findType (db : Db) (id : Nat) : Option EveType :=
  db.types.find? (fun t => decide (t.typeId = id))

/-- `group.category_id` of a group id, via the `EveGroup` table. -/
def groupCategoryId (db : Db) (g : Option Nat) : Option Nat :=
  g.bind (fun gid => db.groups.lookup gid)

/-- `_get_attribute_value_from_item`: value of one dogma attribute from the
pre-populated cache, defaulting to 0 when the attribute is absent. -/
def get_attribute_value_from_item (t : EveType) (attributeId : Nat) : Int :=
  (t.attrs.lookup attributeId).getD 0

/-- Ship-specific comparison rules for a group (`specific_rules_by_group`):
rules whose `ship_type_id` equals the submitted hull and whose group matches.
A group key is present in the source's dictionary iff this list is nonempty. -/
def specificRulesFor (db : Db) (shipTypeId : Nat) (g : Option Nat) : List ItemComparisonRule :=
  db.rules.filter (fun r => decide (r.shipTypeId = some shipTypeId ∧ some r.groupId = g))

/-- Global comparison rules for a group (`global_rules_by_group`). -/
def globalRulesFor (db : Db) (g : Option Nat) : List ItemComparisonRule :=
  db.rules.filter (fun r => decide (r.shipTypeId = none ∧ some r.groupId = g))

/-- Rule lookup with override: ship-specific rules are used when any exist for
the group, otherwise the global rules (`specific_rules_by_group.get(...)`
falling back to `global_rules_by_group.get(..., [])`). -/
def applicableRules (db : Db) (shipTypeId : Nat) (g : Option Nat) : List ItemComparisonRule :=
  let specific := specificRulesFor db shipTypeId g
  if specific.isEmpty then globalRulesFor db g else specific

/-- One rule of the equal-or-better check: for a `higher_is_better` rule the
submitted value must not be below the doctrine value, otherwise it must not be
above it. -/
def rulePasses (doctrineItem submittedItem : EveType) (r : ItemComparisonRule) : Bool :=
  let doctrineVal := get_attribute_value_from_item doctrineItem r.attributeId
  let submittedVal := get_attribute_value_from_item submittedItem r.attributeId
  if r.higherIsBetter then decide (doctrineVal ≤ submittedVal)
  else decide (submittedVal ≤ doctrineVal)

/-- Body of the automatic-substitution scan over the submitted snapshot: a pool
item is added to the allowed set when it is not already allowed, resolves in
the catalog with a group, shares the doctrine item's group (and that group's
category), and every applicable rule passes. -/
def allowedStep (db : Db) (doctrineItem : EveType) (rules : List ItemComparisonRule)
    (allowed : List Nat) (kv : Nat × Nat) : List Nat :=
  if kv.1 ∈ allowed then allowed
  else
    match findType db kv.1 with
    | none => allowed
    | some submittedItem =>
      if submittedItem.groupId.isNone then allowed
      else
        if submittedItem.groupId = doctrineItem.groupId ∧
            groupCategoryId db submittedItem.groupId = groupCategoryId db doctrineItem.groupId then
          if rules.all (rulePasses doctrineItem submittedItem) then allowed ++ [kv.1]
          else allowed
        else allowed

/-- `allowed_ids_for_slot`: starts as the singleton of the doctrine item's id;
when comparison rules exist for the doctrine item's group, every item of the
current snapshot passing the equal-or-better check is added. The manual
substitution map (`FitSubstitutionGroup`) was removed from the source and is
not consulted. -/
def allowedIdsForSlot (db : Db) (shipTypeId : Nat) (pool : Pool)
    (doctrineTypeId : Nat) (doctrineItem : EveType) : List Nat :=
  let rules := applicableRules db shipTypeId doctrineItem.groupId
  let base := [doctrineTypeId]
  if rules.isEmpty then base
  else pool.foldl (allowedStep db doctrineItem rules) base

/-- Subtract `use` from the entry keyed `id` of the pool, deleting the entry
when the remaining quantity is exactly 0 (the source's
`snapshot[id] -= qty; if snapshot[id] == 0: del snapshot[id]`). -/
def poolSub : Pool → Nat → Nat → Pool
  | [], _, _ => []
  | (k, v) :: rest, id, use =>
    if k = id then (if v - use = 0 then rest else (k, v - use) :: rest)
    else (k, v) :: poolSub rest id use

/-- `del snapshot[id]` (key deletion; keys are unique in a Counter). -/
def eraseKey (id : Nat) : Pool → Pool
  | [] => []
  | (k, v) :: rest => if k = id then rest else (k, v) :: eraseKey id rest

/-- Greedy consumption of `requiredQty` across the allowed-substitute list:
for each allowed id present in the snapshot, take `min available needed`; stop
as soon as the requirement is met. Returns the consumed quantity and the
remaining snapshot. -/
def consumeGo (requiredQty : Nat) : List Nat → Nat → Pool → Nat × Pool
  | [], found, pool => (found, pool)
  | id :: rest, found, pool =>
    let step :=
      match pool.lookup id with
      | none => (found, pool)
      | some avail =>
        let use := min avail (requiredQty - found)
        (found + use, poolSub pool id use)
    if step.1 = requiredQty then step
    else consumeGo requiredQty rest step.1 step.2

/-- The per-doctrine shopping-list loop (step 5 of the source): for each
required `(itemId, qty)` the doctrine item must resolve with a group, and the
allowed-substitute set must supply the full quantity from the snapshot;
otherwise the doctrine fails (`none`). On success the remaining snapshot is
returned. -/
def requiredLoop (db : Db) (shipTypeId : Nat) : List (Nat × Nat) → Pool → Option Pool
  | [], pool => some pool
  | (doctrineTypeId, requiredQty) :: rest, pool =>
    match findType db doctrineTypeId with
    | none => none
    | some doctrineItem =>
      if doctrineItem.groupId.isNone then none
      else
        let allowed := allowedIdsForSlot db shipTypeId pool doctrineTypeId doctrineItem
        let fp := consumeGo requiredQty allowed 0 pool
        if fp.1 < requiredQty then none
        else requiredLoop db shipTypeId rest fp.2

/-- Whether one doctrine is a perfect match for the submitted summary.
After the shopping list succeeds, the source computes a failure flag when the
leftover hull quantity exceeds the doctrine's hull requirement, deletes the
hull entry, and rejects only when the snapshot still holds other entries;
control then falls through to the APPROVED return without rechecking the flag,
so only non-hull leftovers can reject the doctrine. -/
def checkDoctrine (db : Db) (shipTypeId : Nat) (submitted : Pool) (d : DoctrineFit) : Bool :=
  match requiredLoop db shipTypeId d.requiredItems submitted with
  | none => false
  | some pool1 => decide (eraseKey shipTypeId pool1 = [])

/-- The doctrine loop: first perfect match wins, otherwise no match. -/
def loopDoctrines (db : Db) (shipTypeId : Nat) (submitted : Pool) :
    List DoctrineFit → Option DoctrineFit × FitStatus × FitCategory
  | [] => (none, FitStatus.PENDING, FitCategory.NONE)
  | d :: rest =>
    if checkDoctrine db shipTypeId submitted d then (some d, FitStatus.APPROVED, d.category)
    else loopDoctrines db shipTypeId submitted rest

/-- `check_fit_against_doctrines`: compares a submitted fit summary against all
doctrines for the hull. A falsy (0) ship id, an empty doctrine list, and a
loop with no perfect match all yield `(none, PENDING, NONE)`. This models the
algorithm as written; the sole deviation is that the source module forgets
the `django.db.models` import, so its rule query `models.Q(...)` (line 354)
raises `NameError` at run time — recorded separately as an error-handling
defect. -/
def check_fit_against_doctrines (db : Db) (shipTypeId : Nat) (submitted : Pool) :
    Option DoctrineFit × FitStatus × FitCategory :=
  if shipTypeId = 0 then (none, FitStatus.PENDING, FitCategory.NONE)
  else
    let matching := db.doctrines.filter (fun d => decide (d.shipTypeId = shipTypeId))
    if matching.isEmpty then (none, FitStatus.PENDING, FitCategory.NONE)
    else loopDoctrines db shipTypeId submitted matching

/-- An id resolves in the catalog with a non-null group (the condition the
shopping-list loop checks for every doctrine item). -/
def resolvesWithGroup (db : Db) (id : Nat) : Bool :=
  match findType db id with
  | some t => t.groupId.isSome
  | none => false

/-!
## EFT text parser (`parse_eft_fit`)

Text is modelled as `List Char` (one Unicode scalar per element); only `\n`
line breaks are modelled, which is the line discipline the fit texts use.
-/

/-- Python's `str.strip()` whitespace, restricted to characters that can occur
inside a line (newlines are consumed by the line split, and U+00A0 has already
been normalized to a space). -/
def pySpace (c : Char) : Bool :=
  c = ' ' || c = '\t' || c = '\r' || c = Char.ofNat 11 || c = Char.ofNat 12

/-- `raw.replace(u'\xa0', u' ')` on a single character. -/
def nbspToSpace (c : Char) : Char :=
  if c = Char.ofNat 160 then ' ' else c

/-- Python's `str.splitlines()` for `\n`-separated text: splits on `\n` and a
trailing newline does not produce a trailing empty line. -/
def pySplitlines : List Char → List (List Char)
  | [] => []
  | c :: rest =>
    if c = '\n' then [] :: pySplitlines rest
    else
      match pySplitlines rest with
      | [] => [[c]]
      | line :: more => (c :: line) :: more

/-- Drop trailing `pySpace` characters. -/
def dropTrailing (l : List Char) : List Char :=
  (l.reverse.dropWhile pySpace).reverse

/-- Python's `str.strip()` on the characters of a line. -/
def stripChars (l : List Char) : List Char :=
  dropTrailing (l.dropWhile pySpace)

/-- Find the first non-blank line; returns it stripped, together with the
remaining lines (`lines_raw[first_line_index + 1:]`). -/
def firstNonBlank : List (List Char) → Option (List Char × List (List Char))
  | [] => none
  | l :: ls =>
    if stripChars l = [] then firstNonBlank ls
    else some (stripChars l, ls)

/-- The header regular expression `^\[([^,]+),\s*(.*?)\]$` applied to the
stripped header line, returning capture group 1 (the raw ship name). The
pattern matches exactly when the line starts with `[`, ends with `]`, and a
comma occurs with at least one character between it and the opening bracket
(group 1 is everything up to the first comma; because `,` differs from the
final `]`, the comma always sits strictly before the closing bracket). The fit
name (group 2) is never used. -/
def headerShipRaw (l : List Char) : Option (List Char) :=
  match l with
  | '[' :: rest =>
    let A := rest.takeWhile (fun c => decide (c ≠ ','))
    if rest.getLast? = some ']' ∧ A ≠ [] ∧ A.length < rest.length then some A else none
  | _ => none

/-- Worker for `stripTags`; the fuel (initially the text length) bounds the
recursion depth, and every step consumes at least one character, so the
fallback arm at fuel 0 is never reached. -/
def stripTagsFuel : Nat → List Char → List Char
  | 0, l => l
  | _ + 1, [] => []
  | fuel + 1, c :: rest =>
    if c = '<' then
      match rest.findIdx? (fun x => decide (x = '>')) with
      | some i => if 1 ≤ i then stripTagsFuel fuel (rest.drop (i + 1)) else c :: stripTagsFuel fuel rest
      | none => c :: stripTagsFuel fuel rest
    else c :: stripTagsFuel fuel rest

/-- `re.sub(r'<[^>]+>', '', s)`: repeatedly remove the leftmost `<...>` span
holding at least one non-`>` character; a `<` with no such closing `>` is kept
and scanning resumes at the next character. -/
def stripTags (l : List Char) : List Char :=
  stripTagsFuel l.length l

/-- Numeric value of a digit run (the `int(...)` of the quantity capture). -/
def digitsToNat (ds : List Char) : Nat :=
  ds.foldl (fun acc c => acc * 10 + (c.toNat - '0'.toNat)) 0

/-- Whether the whole remaining text is a ` x<digits>` quantity suffix. -/
def qtySuffix : List Char → Option Nat
  | ' ' :: 'x' :: ds =>
    if ds ≠ [] ∧ ds.all Char.isDigit then some (digitsToNat ds) else none
  | _ => none

/-- The item regular expression `^(.*?)(?: x(\d+))?$`: the lazy group 1 makes
the engine take the leftmost position whose remainder is exactly a ` x<digits>`
suffix (or no suffix at all). Returns group 1 and the optional quantity. -/
def splitQty : List Char → List Char × Option Nat
  | [] => ([], none)
  | c :: rest =>
    match qtySuffix (c :: rest) with
    | some n => ([], some n)
    | none =>
      let p := splitQty rest
      (c :: p.1, p.2)

/-- Case folding for `name__iexact` lookups. -/
def lowerChars (l : List Char) : List Char := l.map Char.toLower

/-- `EveType.objects.get(name__iexact=...)`: case-insensitive name lookup
(names are case-insensitively unique in the catalog, so `find?` is the row). -/
def findByName (db : Db) (nm : List Char) : Option EveType :=
  db.types.find? (fun t => decide (lowerChars t.name = lowerChars nm))

/-- `stripped.startswith('[') and stripped.endswith(']')`. -/
def bracketed (s : List Char) : Bool :=
  decide (s.head? = some '[' ∧ s.getLast? = some ']')

/-- In-game copy/paste block order (detected when the first item is low-slot). -/
def eftOrderLow : List SlotType :=
  [SlotType.low, SlotType.mid, SlotType.high, SlotType.rig, SlotType.subsystem, SlotType.drone]

/-- Traditional EFT block order (the default). -/
def eftOrderHigh : List SlotType :=
  [SlotType.high, SlotType.mid, SlotType.low, SlotType.rig, SlotType.subsystem, SlotType.drone]

/-- A fitted module's slot as a `final_slot` value. -/
def toFinal : SlotType → FinalSlot
  | SlotType.high => FinalSlot.high
  | SlotType.mid => FinalSlot.mid
  | SlotType.low => FinalSlot.low
  | SlotType.rig => FinalSlot.rig
  | SlotType.subsystem => FinalSlot.subsystem
  | SlotType.drone => FinalSlot.drone

/-- Substring test (`pat in s` on strings): `pat` occurs contiguously in `l`. -/
def hasInfix (pat : List Char) : List Char → Bool
  | [] => decide (pat = [])
  | c :: rest => pat.isPrefixOf (c :: rest) || hasInfix pat rest

/-- Slot type inferred from an `[Empty X Slot]` marker by substring match, in
the source's test order (`high`, `med`, `low`, `rig`, `subsystem`). -/
def markerSlot (slotName : List Char) : Option SlotType :=
  if hasInfix "high".toList slotName then some SlotType.high
  else if hasInfix "med".toList slotName then some SlotType.mid
  else if hasInfix "low".toList slotName then some SlotType.low
  else if hasInfix "rig".toList slotName then some SlotType.rig
  else if hasInfix "subsystem".toList slotName then some SlotType.subsystem
  else none

/-- Classification of an `[Empty X Slot]` marker: an unknown or out-of-order
(index `< cursor`) marker is demoted to cargo, otherwise the cursor advances to
the marker's section. Returns `(final_slot, new cursor)`. (All five inferable
slot types belong to both section orders, so the source's separate membership
test and `ValueError` handler collapse into the index lookup.) -/
def markerClassify (order : List SlotType) (cursor : Nat) (msl : Option SlotType) :
    FinalSlot × Nat :=
  match msl with
  | none => (FinalSlot.cargo, cursor)
  | some sl =>
    match order.findIdx? (fun x => decide (x = sl)) with
    | none => (FinalSlot.cargo, cursor)
    | some i => if i < cursor then (FinalSlot.cargo, cursor) else (toFinal sl, i)

/-- Classification of a fitted item line from its catalog slot type: `none`
(and any type outside the section order) goes to cargo; an item of the current
section keeps its slot; a subsystem on a subsystem-capable hull is accepted
while the cursor is before the drone section (index 5 in both orders); a
forward jump advances the cursor; an item of an earlier, already-closed
section is demoted to cargo. Returns `(final_slot, new cursor)`. -/
def classifyItem (order : List SlotType) (isT3c : Bool) (cursor : Nat)
    (slot : Option SlotType) : FinalSlot × Nat :=
  match slot with
  | none => (FinalSlot.cargo, cursor)
  | some s =>
    match order.findIdx? (fun x => decide (x = s)) with
    | none => (FinalSlot.cargo, cursor)
    | some i =>
      if i = cursor then (toFinal s, cursor)
      else if isT3c = true ∧ s = SlotType.subsystem ∧ cursor < 5 then
        (FinalSlot.subsystem, cursor)
      else if cursor < i then (toFinal s, i)
      else (FinalSlot.cargo, cursor)

/-- One entry of the parsed fit list. The `icon_url` field of the source is a
string derived from `type_id` alone (pure presentation) and is omitted. -/
structure ParsedLine where
  rawLine : List Char
  typeId : Option Nat
  name : List Char
  quantity : Nat
  finalSlot : FinalSlot
deriving DecidableEq, Repr

/-- Mutable state of the line loop: section cursor, accumulated parsed lines,
and the running fit-summary counter. -/
structure ParseState where
  cursor : Nat
  lines : List ParsedLine
  counter : Pool
deriving DecidableEq, Repr

/-- `fit_summary_counter[id] += qty` (Counter order: existing keys in place,
new keys appended). -/
def counterAdd : Pool → Nat → Nat → Pool
  | [], id, q => [(id, q)]
  | (k, v) :: rest, id, q =>
    if k = id then (k, v + q) :: rest else (k, v) :: counterAdd rest id q

/-- The hull entry emitted before the line loop. -/
def hullLine (header : List Char) (ship : EveType) : ParsedLine :=
  { rawLine := header, typeId := some ship.typeId, name := ship.name,
    quantity := 1, finalSlot := FinalSlot.ship }

/-- Initial loop state: the hull line and the hull counted once. -/
def initState (header : List Char) (ship : EveType) : ParseState :=
  { cursor := 0, lines := [hullLine header ship], counter := [(ship.typeId, 1)] }

/-- Block-order detection: the slot type of the first line after the header
that is non-blank, not bracketed and has a nonempty leading name; failure to
resolve that name fails the parse. (`^(.*?)(?: x(\d+))?$` matches every
string, so the source's unmatched-line skip is unreachable.) -/
def detectFirstSlot (db : Db) : List (List Char) → Except (List Char) (Option SlotType)
  | [] => Except.ok none
  | l :: ls =>
    let s := stripChars l
    if s = [] then detectFirstSlot db ls
    else if bracketed s then detectFirstSlot db ls
    else
      let itemName := stripChars (splitQty s).1
      if itemName = [] then detectFirstSlot db ls
      else
        match findByName db itemName with
        | none => Except.error ("Unknown item in fit.".toList)
        | some t => Except.ok t.slotType

/-- One iteration of the main line loop: blank lines advance the cursor (while
in bounds) and emit a BLANK_LINE entry; bracketed lines emit an empty-slot
marker entry; other lines are item lines, whose leading name must resolve in
the catalog — an unresolvable name fails the whole parse. -/
def procLine (db : Db) (order : List SlotType) (isT3c : Bool) (st : ParseState)
    (line : List Char) : Except (List Char) ParseState :=
  let s := stripChars line
  if s = [] then
    Except.ok
      { cursor := if st.cursor < order.length then st.cursor + 1 else st.cursor,
        lines := st.lines ++
          [{ rawLine := [], typeId := none, name := "BLANK_LINE".toList,
             quantity := 0, finalSlot := FinalSlot.blankLine }],
        counter := st.counter }
  else if bracketed s then
    let fc := markerClassify order st.cursor (markerSlot (lowerChars s))
    Except.ok
      { cursor := fc.2,
        lines := st.lines ++
          [{ rawLine := s, typeId := none, name := s, quantity := 0, finalSlot := fc.1 }],
        counter := st.counter }
  else
    let itemName := stripChars (splitQty s).1
    let qty := ((splitQty s).2).getD 1
    if itemName = [] then Except.ok st
    else
      match findByName db itemName with
      | none => Except.error ("Unknown item in fit.".toList)
      | some t =>
        let fc := classifyItem order isT3c st.cursor t.slotType
        Except.ok
          { cursor := fc.2,
            lines := st.lines ++
              [{ rawLine := s, typeId := some t.typeId, name := t.name,
                 quantity := qty, finalSlot := fc.1 }],
            counter := counterAdd st.counter t.typeId qty }

/-- The main line loop over the lines after the header. -/
def runLines (db : Db) (order : List SlotType) (isT3c : Bool) :
    ParseState → List (List Char) → Except (List Char) ParseState
  | st, [] => Except.ok st
  | st, l :: ls =>
    match procLine db order isT3c st l with
    | Except.error e => Except.error e
    | Except.ok st' => runLines db order isT3c st' ls

/-- The lines of the normalized raw text. -/
def parseLinesOf (raw : List Char) : List (List Char) :=
  pySplitlines (raw.map nbspToSpace)

/-- Parse steps after the hull has been resolved: block-order detection
(low-slot first item means the in-game order, anything else the traditional
order), the T3-cruiser test `(subsystem_slots or 0) > 0`, then the main line
loop. -/
def afterHeader (db : Db) (ship : EveType) (header : List Char)
    (rest : List (List Char)) : Except (List Char) (EveType × List ParsedLine × Pool) :=
  match detectFirstSlot db rest with
  | Except.error e => Except.error e
  | Except.ok firstSlot =>
    match runLines db (if firstSlot = some SlotType.low then eftOrderLow else eftOrderHigh)
        (decide (0 < ship.subsystemSlots.getD 0)) (initState header ship) rest with
    | Except.error e => Except.error e
    | Except.ok st => Except.ok (ship, st.lines, st.counter)

/-- `parse_eft_fit`: normalize non-breaking spaces, split into lines, parse
the `[Ship, Fit Name]` header, resolve the hull, then parse the item lines.
Every failure is an `Except.error` with no partial result. -/
def parse_eft_fit (db : Db) (raw : List Char) :
    Except (List Char) (EveType × List ParsedLine × Pool) :=
  let lines := parseLinesOf raw
  if lines = [] then Except.error ("Fit is empty.".toList)
  else
    match firstNonBlank lines with
    | none => Except.error ("Fit contains only whitespace.".toList)
    | some (header, rest) =>
      match headerShipRaw header with
      | none =>
        Except.error ("Could not find valid header. Fit must start with Ship, Fit Name.".toList)
      | some shipRaw =>
        if stripChars shipRaw = [] then Except.error ("Ship name in header is empty.".toList)
        else
          match findByName db (stripChars (stripTags (stripChars shipRaw))) with
          | none => Except.error ("Ship hull could not be found in local SDE.".toList)
          | some ship => afterHeader db ship header rest

/-- Whether an `Except` value is an error. -/
def isErr : Except (List Char) (EveType × List ParsedLine × Pool) → Bool
  | Except.error _ => true
  | Except.ok _ => false

/-- A line (taken verbatim from the text after the header) on which the parse
must fail: non-blank, not a bracketed marker, and its leading item name does
not resolve in the catalog. -/
def badLine (db : Db) (l : List Char) : Bool :=
  decide (stripChars l ≠ []) &&
  !(bracketed (stripChars l)) &&
  (findByName db (stripChars (splitQty (stripChars l)).1)).isNone

/-- The failure condition of the specification, stated over the raw text: the
text is empty or whitespace-only; or the first non-blank line does not match
the header pattern; or the captured ship name is empty; or the (tag-stripped)
ship name does not resolve; or some later non-blank, non-bracketed line's
leading item name does not resolve. -/
def parseFailsSpec (db : Db) (raw : List Char) : Prop :=
  match firstNonBlank (parseLinesOf raw) with
  | none => True
  | some (header, rest) =>
    headerShipRaw header = none ∨
    ∃ shipRaw, headerShipRaw header = some shipRaw ∧
      (stripChars shipRaw = [] ∨
       findByName db (stripChars (stripTags (stripChars shipRaw))) = none ∨
       ∃ l ∈ rest, badLine db l = true)

/-- The condition under which the automatic-substitution scan (`allowedStep`)
accepts a pool item id as a substitute for the doctrine item: it resolves in
the catalog, has a group, shares the doctrine item's group and that group's
category, and every rule of the given rule list passes. -/
def acceptsAutoSub (db : Db) (doctrineItem : EveType) (rules : List ItemComparisonRule)
    (s : Nat) : Bool :=
  match findType db s with
  | none => false
  | some submittedItem =>
    !submittedItem.groupId.isNone &&
    decide (submittedItem.groupId = doctrineItem.groupId ∧
      groupCategoryId db submittedItem.groupId = groupCategoryId db doctrineItem.groupId) &&
    rules.all (rulePasses doctrineItem submittedItem)

/-- Projection of a parse result to the `final_slot` sequence of its lines. -/
def parsedSlots (r : Except (List Char) (EveType × List ParsedLine × Pool)) :
    Option (List FinalSlot) :=
  match r with
  | Except.ok res => some (res.2.1.map ParsedLine.finalSlot)
  | Except.error _ => none

/-!
## Concrete data used by the witness and counterexample theorems
-/

/-- A hull: "Rifter", type 5, group 20, no subsystem slots. -/
def exShip : EveType :=
  { typeId := 5, name := "Rifter".toList, slotType := none, groupId := some 20,
    subsystemSlots := none, attrs := [] }

/-- A high-slot module, group 10, attribute 30 = 5. -/
def exGun : EveType :=
  { typeId := 1, name := "Gun II".toList, slotType := some SlotType.high, groupId := some 10,
    subsystemSlots := none, attrs := [(30, 5)] }

/-- A mid-slot module, group 11 (a group with no comparison rules). -/
def exShield : EveType :=
  { typeId := 2, name := "Shield II".toList, slotType := some SlotType.mid, groupId := some 11,
    subsystemSlots := none, attrs := [(40, 6)] }

/-- A better variant of `exGun` in the same group, attribute 30 = 8. -/
def exBetterGun : EveType :=
  { typeId := 3, name := "Gun III".toList, slotType := some SlotType.high, groupId := some 10,
    subsystemSlots := none, attrs := [(30, 8)] }

/-- A low-slot module, group 12. -/
def exPlate : EveType :=
  { typeId := 4, name := "Plate II".toList, slotType := some SlotType.low, groupId := some 12,
    subsystemSlots := none, attrs := [] }

/-- Another mid-slot module of group 11, attribute-rich but without any rule
for its group. -/
def exShieldB : EveType :=
  { typeId := 6, name := "Shield X".toList, slotType := some SlotType.mid, groupId := some 11,
    subsystemSlots := none, attrs := [(40, 9)] }

/-- A doctrine for the hull 5: hull, two guns, one shield. -/
def exDoctrine : DoctrineFit :=
  { shipTypeId := 5, category := FitCategory.DPS, requiredItems := [(5, 1), (1, 2), (2, 1)] }

/-- A global comparison rule for group 10 on attribute 30, higher is better. -/
def exRule : ItemComparisonRule :=
  { groupId := 10, attributeId := 30, higherIsBetter := true, shipTypeId := none }

/-- The database snapshot used by the witnesses. -/
def exDb : Db :=
  { types := [exShip, exGun, exShield, exBetterGun, exPlate, exShieldB],
    groups := [(10, 7), (11, 7), (12, 7), (20, 6)],
    doctrines := [exDoctrine],
    rules := [exRule] }

/-- A manually curated substitution group: "Shield X" (6) may stand in for the
base item "Shield II" (2). The comparison engine never reads this table. -/
def exSubGroup : FitSubstitutionGroup :=
  { baseItemId := 2, substituteItemIds := [6] }

/-- Fit text for the parser witnesses. -/
def exRaw : List Char := "[Rifter, fit]\nGun II".toList

/-- The parsed line list of `exRaw` over `exDb`. -/
def exLines : List ParsedLine :=
  [hullLine ("[Rifter, fit]".toList) exShip,
   { rawLine := "Gun II".toList, typeId := some 1, name := "Gun II".toList,
     quantity := 1, finalSlot := FinalSlot.high }]

/-- The fit summary of `exRaw` over `exDb`. -/
def exCounter : Pool := [(5, 1), (1, 1)]

/-- Fit text whose second item is a low-slot module listed after a mid-slot
module, under the traditional (high-first) order. -/
def c8Raw : List Char := "[Rifter, t]\nShield II\nPlate II".toList

/-!
## Helper lemmas about the comparison engine
-/

theorem isEmpty_false_of_ne_nil {α : Type} {l : List α} (h : l ≠ []) : l.isEmpty = false := by
  cases l with
  | nil => exact absurd rfl h
  | cons a t => rfl

theorem mem_allowedStep_iff (db : Db) (dI : EveType) (rules : List ItemComparisonRule)
    (acc : List Nat) (kv : Nat × Nat) (s : Nat) :
    s ∈ allowedStep db dI rules acc kv ↔
      s ∈ acc ∨ (s = kv.1 ∧ acceptsAutoSub db dI rules kv.1 = true) := by
  unfold allowedStep acceptsAutoSub
  by_cases h1 : kv.1 ∈ acc
  · rw [if_pos h1]
    constructor
    · exact fun h => Or.inl h
    · rintro (h | ⟨rfl, _⟩)
      · exact h
      · exact h1
  · rw [if_neg h1]
    cases hft : findType db kv.1 with
    | none => simp [hft]
    | some sI =>
      simp only [hft]
      by_cases hg : sI.groupId.isNone = true
      · simp [hg]
      · rw [if_neg hg]
        by_cases hgc : sI.groupId = dI.groupId ∧
            groupCategoryId db sI.groupId = groupCategoryId db dI.groupId
        · rw [if_pos hgc]
          have hsome : dI.groupId.isSome = true := by
            rw [← hgc.1]
            cases hgi : sI.groupId with
            | none => rw [hgi] at hg; exact absurd rfl hg
            | some g => rfl
          by_cases hall : rules.all (rulePasses dI sI) = true
          · rw [if_pos hall]
            simp [hg, hgc, hall, hsome, List.mem_append]
          · rw [if_neg hall]
            simp [hall]
        · rw [if_neg hgc]
          simp [hgc]

theorem allowedStep_app (db : Db) (dI : EveType) (rules : List ItemComparisonRule)
    (acc : List Nat) (kv : Nat × Nat) :
    ∃ e, allowedStep db dI rules acc kv = acc ++ e := by
  unfold allowedStep
  by_cases h1 : kv.1 ∈ acc
  · exact ⟨[], by rw [if_pos h1, List.append_nil]⟩
  · rw [if_neg h1]
    cases hft : findType db kv.1 with
    | none => exact ⟨[], (List.append_nil acc).symm⟩
    | some sI =>
      dsimp only
      by_cases hg : sI.groupId.isNone = true
      · exact ⟨[], by rw [if_pos hg, List.append_nil]⟩
      · rw [if_neg hg]
        by_cases hgc : sI.groupId = dI.groupId ∧
            groupCategoryId db sI.groupId = groupCategoryId db dI.groupId
        · rw [if_pos hgc]
          by_cases hall : rules.all (rulePasses dI sI) = true
          · exact ⟨[kv.1], by rw [if_pos hall]⟩
          · exact ⟨[], by rw [if_neg hall, List.append_nil]⟩
        · exact ⟨[], by rw [if_neg hgc, List.append_nil]⟩

theorem foldl_allowedStep_app (db : Db) (dI : EveType) (rules : List ItemComparisonRule) :
    ∀ (pool : Pool) (acc : List Nat),
      ∃ e, pool.foldl (allowedStep db dI rules) acc = acc ++ e := by
  intro pool
  induction pool with
  | nil => exact fun acc => ⟨[], (List.append_nil acc).symm⟩
  | cons kv rest ih =>
    intro acc
    obtain ⟨e0, he0⟩ := allowedStep_app db dI rules acc kv
    obtain ⟨e1, he1⟩ := ih (acc ++ e0)
    exact ⟨e0 ++ e1, by rw [List.foldl_cons, he0, he1, List.append_assoc]⟩

theorem mem_foldl_allowedStep (db : Db) (dI : EveType) (rules : List ItemComparisonRule) :
    ∀ (pool : Pool) (acc : List Nat) (s : Nat),
      s ∈ pool.foldl (allowedStep db dI rules) acc ↔
        s ∈ acc ∨ ∃ q, (s, q) ∈ pool ∧ acceptsAutoSub db dI rules s = true := by
  intro pool
  induction pool with
  | nil => intro acc s; simp
  | cons kv rest ih =>
    intro acc s
    rw [List.foldl_cons, ih, mem_allowedStep_iff]
    obtain ⟨k, v⟩ := kv
    constructor
    · rintro ((h | ⟨rfl, ha⟩) | ⟨q, hq, ha⟩)
      · exact Or.inl h
      · exact Or.inr ⟨v, List.mem_cons_self _ _, ha⟩
      · exact Or.inr ⟨q, List.mem_cons_of_mem _ hq, ha⟩
    · rintro (h | ⟨q, hq, ha⟩)
      · exact Or.inl (Or.inl h)
      · rcases List.mem_cons.mp hq with heq | hmem
        · cases heq
          exact Or.inl (Or.inr ⟨rfl, ha⟩)
        · exact Or.inr ⟨q, hmem, ha⟩

theorem allowedIds_cons (db : Db) (S : Nat) (pool : Pool) (did : Nat) (dI : EveType) :
    ∃ tl, allowedIdsForSlot db S pool did dI = did :: tl := by
  unfold allowedIdsForSlot
  by_cases h : (applicableRules db S dI.groupId).isEmpty = true
  · exact ⟨[], by rw [if_pos h]⟩
  · obtain ⟨e, he⟩ := foldl_allowedStep_app db dI (applicableRules db S dI.groupId) pool [did]
    exact ⟨e, by rw [if_neg h, he]; rfl⟩

theorem mem_allowedIds_iff (db : Db) (S : Nat) (pool : Pool) (did : Nat) (dI : EveType)
    (s : Nat) :
    s ∈ allowedIdsForSlot db S pool did dI ↔
      s = did ∨ (applicableRules db S dI.groupId ≠ [] ∧
        ∃ q, (s, q) ∈ pool ∧
          acceptsAutoSub db dI (applicableRules db S dI.groupId) s = true) := by
  unfold allowedIdsForSlot
  by_cases h : (applicableRules db S dI.groupId).isEmpty = true
  · rw [if_pos h]
    have hnil : applicableRules db S dI.groupId = [] := List.isEmpty_iff.mp h
    simp [hnil]
  · rw [if_neg h]
    have hne : applicableRules db S dI.groupId ≠ [] := by
      intro hh
      exact h (by rw [hh]; rfl)
    rw [mem_foldl_allowedStep]
    simp [hne]

theorem lookup_cons_self (k : Nat) (v : Nat) (rest : Pool) :
    List.lookup k ((k, v) :: rest) = some v := by
  simp [List.lookup]

theorem poolSub_cons_self (k : Nat) (v : Nat) (rest : Pool) :
    poolSub ((k, v) :: rest) k v = rest := by
  unfold poolSub
  rw [if_pos rfl, if_pos (Nat.sub_self v)]

theorem consumeGo_head (req : Nat) (tl : List Nat) (pool : Pool) (did : Nat)
    (h : pool.lookup did = some req) :
    consumeGo req (did :: tl) 0 pool = (req, poolSub pool did req) := by
  unfold consumeGo
  rw [h]
  simp [Nat.min_self]

theorem requiredLoop_append_self (db : Db) (S : Nat) :
    ∀ (req extra : Pool),
      (∀ p ∈ req, resolvesWithGroup db p.1 = true) →
      requiredLoop db S req (req ++ extra) = some extra := by
  intro req
  induction req with
  | nil => intro extra _; simp [requiredLoop]
  | cons p rest ih =>
    intro extra hres
    obtain ⟨did, q⟩ := p
    have h1 : resolvesWithGroup db did = true := hres (did, q) (List.mem_cons_self _ _)
    unfold resolvesWithGroup at h1
    cases hft : findType db did with
    | none => rw [hft] at h1; exact absurd h1 (by simp)
    | some dI =>
      simp only [hft] at h1
      have hg : dI.groupId.isNone = false := by
        cases hgi : dI.groupId with
        | none => rw [hgi] at h1; exact absurd h1 (by simp)
        | some g => rfl
      obtain ⟨tl, htl⟩ :=
        allowedIds_cons db S ((did, q) :: (rest ++ extra)) did dI
      have hlk : List.lookup did ((did, q) :: (rest ++ extra)) = some q :=
        lookup_cons_self did q (rest ++ extra)
      have hcons : consumeGo q (did :: tl) 0 ((did, q) :: (rest ++ extra)) =
          (q, rest ++ extra) := by
        rw [consumeGo_head q tl _ did hlk, poolSub_cons_self]
      show requiredLoop db S ((did, q) :: rest) (((did, q) :: rest) ++ extra) = some extra
      rw [List.cons_append]
      unfold requiredLoop
      simp only [hft, hg, htl, hcons]
      rw [if_neg Bool.false_ne_true, if_neg (Nat.lt_irrefl q)]
      exact ih extra (fun p hp => hres p (List.mem_cons_of_mem _ hp))

theorem mem_eraseKey_of_ne (id k q : Nat) :
    ∀ (pool : Pool), (k, q) ∈ pool → k ≠ id → (k, q) ∈ eraseKey id pool := by
  intro pool
  induction pool with
  | nil => intro h _; exact absurd h (by simp)
  | cons p rest ih =>
    intro hmem hne
    obtain ⟨a, b⟩ := p
    unfold eraseKey
    by_cases ha : a = id
    · rw [if_pos ha]
      rcases List.mem_cons.mp hmem with heq | h
      · cases heq
        exact absurd ha hne
      · exact h
    · rw [if_neg ha]
      rcases List.mem_cons.mp hmem with heq | h
      · rw [heq]
        exact List.mem_cons_self _ _
      · exact List.mem_cons_of_mem _ (ih h hne)

theorem eraseKey_cons_of_ne (id k q : Nat) (rest : Pool) (h : k ≠ id) :
    eraseKey id ((k, q) :: rest) = (k, q) :: eraseKey id rest := by
  simp only [eraseKey]
  rw [if_neg h]

theorem loopDoctrines_shape (db : Db) (S : Nat) (M : Pool) :
    ∀ ds, loopDoctrines db S M ds = (none, FitStatus.PENDING, FitCategory.NONE) ∨
      ∃ d, loopDoctrines db S M ds = (some d, FitStatus.APPROVED, d.category) := by
  intro ds
  induction ds with
  | nil => exact Or.inl rfl
  | cons d rest ih =>
    unfold loopDoctrines
    by_cases h : checkDoctrine db S M d = true
    · exact Or.inr ⟨d, by rw [if_pos h]⟩
    · rw [if_neg h]
      exact ih

theorem loopDoctrines_first_match (db : Db) (S : Nat) (M : Pool) :
    ∀ ds, (∃ d ∈ ds, checkDoctrine db S M d = true) →
      ∃ d', loopDoctrines db S M ds = (some d', FitStatus.APPROVED, d'.category) := by
  intro ds
  induction ds with
  | nil => rintro ⟨d, hd, _⟩; exact absurd hd (by simp)
  | cons d rest ih =>
    rintro ⟨d0, hd0, hchk⟩
    unfold loopDoctrines
    by_cases h : checkDoctrine db S M d = true
    · exact ⟨d, by rw [if_pos h]⟩
    · rw [if_neg h]
      rcases List.mem_cons.mp hd0 with heq | hmem
      · rw [heq] at hchk
        exact absurd hchk h
      · exact ih ⟨d0, hmem, hchk⟩

theorem loopDoctrines_all_false (db : Db) (S : Nat) (M : Pool) :
    ∀ ds, (∀ d ∈ ds, checkDoctrine db S M d = false) →
      loopDoctrines db S M ds = (none, FitStatus.PENDING, FitCategory.NONE) := by
  intro ds
  induction ds with
  | nil => intro _; rfl
  | cons d rest ih =>
    intro hall
    unfold loopDoctrines
    have hd : checkDoctrine db S M d = false := hall d (List.mem_cons_self _ _)
    rw [if_neg (by rw [hd]; exact Bool.false_ne_true)]
    exact ih (fun x hx => hall x (List.mem_cons_of_mem _ hx))

/-!
## Claim theorems for the doctrine-comparison engine
-/

/-- C1: for a doctrine targeting hull `S` whose required items all resolve in
the catalog (with a group), submitting exactly the doctrine's `requiredItems`
(hull included, no extra items) returns a matched doctrine, `APPROVED`, and
that doctrine's category. -/
theorem c1_exact_match_approved (db : Db) (S : Nat) (d : DoctrineFit)
    (hS : S ≠ 0) (hmem : d ∈ db.doctrines) (hship : d.shipTypeId = S)
    (hres : ∀ p ∈ d.requiredItems, resolvesWithGroup db p.1 = true) :
    ∃ d', check_fit_against_doctrines db S d.requiredItems =
      (some d', FitStatus.APPROVED, d'.category) := by
  have hfil : d ∈ db.doctrines.filter (fun x => decide (x.shipTypeId = S)) :=
    List.mem_filter.mpr ⟨hmem, by simp [hship]⟩
  have hchk : checkDoctrine db S d.requiredItems d = true := by
    unfold checkDoctrine
    have hloop := requiredLoop_append_self db S d.requiredItems [] hres
    rw [List.append_nil] at hloop
    rw [hloop]
    simp [eraseKey]
  unfold check_fit_against_doctrines
  rw [if_neg hS,
    if_neg (by rw [isEmpty_false_of_ne_nil (List.ne_nil_of_mem hfil)]; exact Bool.false_ne_true)]
  exact loopDoctrines_first_match db S d.requiredItems _ ⟨d, hfil, hchk⟩

theorem c1_witness :
    ∃ d', check_fit_against_doctrines exDb 5 exDoctrine.requiredItems =
      (some d', FitStatus.APPROVED, d'.category) :=
  c1_exact_match_approved exDb 5 exDoctrine (by decide) (by decide) (by decide) (by decide)

/-- C2: (a) whenever the shopping-list loop of a doctrine succeeds but the
remaining pool still holds a non-hull entry with positive quantity, that
doctrine is not matched; (b) in particular, with a single doctrine for the
hull whose items resolve, a summary equal to the doctrine's `requiredItems`
(hull included) plus one additional non-doctrine item yields
`(none, PENDING, NONE)`. -/
theorem c2_leftover_rejection (db : Db) (S : Nat) :
    (∀ (d : DoctrineFit) (M pool1 : Pool) (k q : Nat),
      requiredLoop db S d.requiredItems M = some pool1 →
      (k, q) ∈ pool1 → k ≠ S → 0 < q →
      checkDoctrine db S M d = false) ∧
    (∀ (d : DoctrineFit) (e : Nat),
      db.doctrines.filter (fun x => decide (x.shipTypeId = S)) = [d] →
      S ≠ 0 →
      (∀ p ∈ d.requiredItems, resolvesWithGroup db p.1 = true) →
      S ∈ d.requiredItems.map Prod.fst →
      e ∉ d.requiredItems.map Prod.fst →
      check_fit_against_doctrines db S (d.requiredItems ++ [(e, 1)]) =
        (none, FitStatus.PENDING, FitCategory.NONE)) := by
  constructor
  · intro d M pool1 k q hloop hmem hkS _
    unfold checkDoctrine
    rw [hloop]
    exact decide_eq_false (List.ne_nil_of_mem (mem_eraseKey_of_ne S k q pool1 hmem hkS))
  · intro d e hfil hS hres hhull hext
    have heS : e ≠ S := fun h => hext (h ▸ hhull)
    have hloop := requiredLoop_append_self db S d.requiredItems [(e, 1)] hres
    have hchk : checkDoctrine db S (d.requiredItems ++ [(e, 1)]) d = false := by
      unfold checkDoctrine
      simp only [hloop]
      rw [eraseKey_cons_of_ne S e 1 [] heS]
      exact decide_eq_false (by simp [eraseKey])
    unfold check_fit_against_doctrines
    rw [if_neg hS, hfil]
    rw [if_neg (by exact Bool.false_ne_true)]
    exact loopDoctrines_all_false db S _ [d] (by
      intro x hx
      rcases List.mem_cons.mp hx with heq | hx0
      · rw [heq]; exact hchk
      · exact absurd hx0 (by simp))

theorem c2_witness :
    checkDoctrine exDb 5 (exDoctrine.requiredItems ++ [(4, 1)]) exDoctrine = false ∧
    check_fit_against_doctrines exDb 5 (exDoctrine.requiredItems ++ [(4, 1)]) =
      (none, FitStatus.PENDING, FitCategory.NONE) :=
  ⟨(c2_leftover_rejection exDb 5).1 exDoctrine (exDoctrine.requiredItems ++ [(4, 1)])
      [(4, 1)] 4 1 (by decide) (by decide) (by decide) (by decide),
   (c2_leftover_rejection exDb 5).2 exDoctrine 4 (by decide) (by decide) (by decide)
      (by decide) (by decide)⟩

/-- C3 counterexample: the substitution store marks item 6 as a manual
substitute for the doctrine item 2, yet the allowed-substitute set computed by
the engine for item 2 does not contain 6, and a fit replacing item 2 by item 6
is not approved — the engine never consults `FitSubstitutionGroup` (the source
removed that step). -/
theorem c3_counterexample :
    (exSubGroup.baseItemId = 2 ∧ 6 ∈ exSubGroup.substituteItemIds) ∧
    6 ∉ allowedIdsForSlot exDb 5 [(5, 1), (1, 2), (6, 1)] 2 exShield ∧
    check_fit_against_doctrines exDb 5 [(5, 1), (1, 2), (6, 1)] =
      (none, FitStatus.PENDING, FitCategory.NONE) := by
  decide

/-- C3 amended: the allowed-substitute set for a required doctrine item
consists of the item id itself plus only the rule-driven automatic
substitutes drawn from the submitted pool (nonempty applicable rule set, all
rules passing); manually curated `FitSubstitutionGroup` substitutes are not
consulted and enter the set only if they qualify via the rules. -/
theorem c3_amended_allowed_set (db : Db) (S : Nat) (pool : Pool) (did : Nat)
    (dI : EveType) (s : Nat) (h : s ∈ allowedIdsForSlot db S pool did dI) :
    s = did ∨ (applicableRules db S dI.groupId ≠ [] ∧
      ∃ q, (s, q) ∈ pool ∧
        acceptsAutoSub db dI (applicableRules db S dI.groupId) s = true) :=
  (mem_allowedIds_iff db S pool did dI s).mp h

theorem c3_amended_witness :
    3 = 1 ∨ (applicableRules exDb 5 exGun.groupId ≠ [] ∧
      ∃ q, (3, q) ∈ ([(5, 1), (3, 2), (2, 1)] : Pool) ∧
        acceptsAutoSub exDb exGun (applicableRules exDb 5 exGun.groupId) 3 = true) :=
  c3_amended_allowed_set exDb 5 [(5, 1), (3, 2), (2, 1)] 1 exGun 3 (by decide)

/-- C4: when there are zero applicable comparison rules for the doctrine
item's group — no ship-specific rule and no global rule — no other submitted
item is ever accepted into the allowed-substitute set, regardless of its
attribute values. -/
theorem c4_missing_rule_safety (db : Db) (S : Nat) (pool : Pool) (did : Nat)
    (dI : EveType) (s : Nat)
    (hspec : specificRulesFor db S dI.groupId = [])
    (hglob : globalRulesFor db dI.groupId = [])
    (hne : s ≠ did) :
    s ∉ allowedIdsForSlot db S pool did dI := by
  have hrules : applicableRules db S dI.groupId = [] := by
    unfold applicableRules
    rw [hspec]
    exact hglob
  intro h
  rcases (mem_allowedIds_iff db S pool did dI s).mp h with heq | ⟨hne', _⟩
  · exact hne heq
  · exact hne' hrules

theorem c4_witness :
    6 ∉ allowedIdsForSlot exDb 5 [(5, 1), (1, 2), (6, 1)] 2 exShield :=
  c4_missing_rule_safety exDb 5 [(5, 1), (1, 2), (6, 1)] 2 exShield 6
    (by decide) (by decide) (by decide)

/-- C5: a submitted pool item in the same group as the doctrine item (and
distinct from it) is added to the allowed-substitute set exactly when the
applicable rule set — ship-specific rules for the group when any exist,
otherwise the global rules — is non-empty and every rule in it passes (for a
`higher_is_better` rule the submitted value is ≥ the doctrine value, otherwise
≤, which is what `rulePasses` computes). -/
theorem c5_auto_sub_iff (db : Db) (S : Nat) (pool : Pool) (did : Nat)
    (dI : EveType) (s q : Nat) (sI : EveType)
    (hpool : (s, q) ∈ pool) (hne : s ≠ did)
    (hft : findType db s = some sI)
    (hsg : sI.groupId = dI.groupId) (hsome : sI.groupId.isSome = true) :
    (s ∈ allowedIdsForSlot db S pool did dI) ↔
      (applicableRules db S dI.groupId ≠ [] ∧
       ∀ r ∈ applicableRules db S dI.groupId, rulePasses dI sI r = true) := by
  have hacc : acceptsAutoSub db dI (applicableRules db S dI.groupId) s =
      (applicableRules db S dI.groupId).all (rulePasses dI sI) := by
    have hn : sI.groupId.isNone = false := by
      cases hgi : sI.groupId with
      | none => rw [hgi] at hsome; exact absurd hsome (by simp)
      | some g => rfl
    unfold acceptsAutoSub
    simp only [hft]
    rw [hn, hsg]
    simp
  rw [mem_allowedIds_iff]
  constructor
  · rintro (heq | ⟨hne', q', hq', ha'⟩)
    · exact absurd heq hne
    · rw [hacc] at ha'
      exact ⟨hne', List.all_eq_true.mp ha'⟩
  · rintro ⟨hne', hall⟩
    exact Or.inr ⟨hne', q, hpool, by rw [hacc]; exact List.all_eq_true.mpr hall⟩

theorem c5_witness :
    (3 ∈ allowedIdsForSlot exDb 5 [(5, 1), (3, 2), (2, 1)] 1 exGun) ↔
      (applicableRules exDb 5 exGun.groupId ≠ [] ∧
       ∀ r ∈ applicableRules exDb 5 exGun.groupId, rulePasses exGun exBetterGun r = true) :=
  c5_auto_sub_iff exDb 5 [(5, 1), (3, 2), (2, 1)] 1 exGun 3 2 exBetterGun
    (by decide) (by decide) (by decide) (by decide) (by decide)

/-- C9 (intended behavior, see the missing-import defect in the results): when
no doctrine targets the hull, or when every doctrine for the hull fails the
perfect-match check, the comparison returns `(none, PENDING, NONE)` rather
than raising. -/
theorem c9_pending_outcomes (db : Db) (S : Nat) (M : Pool) :
    (db.doctrines.filter (fun x => decide (x.shipTypeId = S)) = [] →
      check_fit_against_doctrines db S M = (none, FitStatus.PENDING, FitCategory.NONE)) ∧
    ((∀ d ∈ db.doctrines.filter (fun x => decide (x.shipTypeId = S)),
        checkDoctrine db S M d = false) →
      check_fit_against_doctrines db S M = (none, FitStatus.PENDING, FitCategory.NONE)) := by
  constructor
  · intro hnil
    unfold check_fit_against_doctrines
    by_cases hS : S = 0
    · rw [if_pos hS]
    · rw [if_neg hS, hnil]
      rfl
  · intro hall
    unfold check_fit_against_doctrines
    by_cases hS : S = 0
    · rw [if_pos hS]
    · rw [if_neg hS]
      by_cases hie : (db.doctrines.filter (fun x => decide (x.shipTypeId = S))).isEmpty = true
      · rw [if_pos hie]
      · rw [if_neg hie]
        exact loopDoctrines_all_false db S M _ hall

theorem c9_witness :
    check_fit_against_doctrines exDb 9 [(5, 1)] = (none, FitStatus.PENDING, FitCategory.NONE) :=
  (c9_pending_outcomes exDb 9 [(5, 1)]).1 (by decide)

/-- C10: the three result components are coupled — every result is either
exactly `(none, PENDING, NONE)` or of the form
`(some d, APPROVED, d.category)` for a matched doctrine `d`; hence the status
is `APPROVED` iff the matched doctrine is non-null, in which case the category
is that doctrine's, and a `PENDING` status comes with the `none` doctrine and
the `NONE` category. -/
theorem c10_result_coupling (db : Db) (S : Nat) (M : Pool) :
    check_fit_against_doctrines db S M = (none, FitStatus.PENDING, FitCategory.NONE) ∨
    ∃ d, check_fit_against_doctrines db S M = (some d, FitStatus.APPROVED, d.category) := by
  unfold check_fit_against_doctrines
  by_cases hS : S = 0
  · rw [if_pos hS]
    exact Or.inl rfl
  · rw [if_neg hS]
    by_cases hie : (db.doctrines.filter (fun x => decide (x.shipTypeId = S))).isEmpty = true
    · rw [if_pos hie]
      exact Or.inl rfl
    · rw [if_neg hie]
      exact loopDoctrines_shape db S M _

/-!
## Helper lemmas about the parser
-/

theorem toFinal_ne_ship (s : SlotType) : toFinal s ≠ FinalSlot.ship := by
  cases s <;> simp [toFinal]

theorem markerClassify_fst_ne_ship (order : List SlotType) (cursor : Nat)
    (msl : Option SlotType) : (markerClassify order cursor msl).1 ≠ FinalSlot.ship := by
  unfold markerClassify
  cases msl with
  | none => simp
  | some sl =>
    cases h : order.findIdx? (fun x => decide (x = sl)) with
    | none => simp [h]
    | some i =>
      simp only [h]
      by_cases h1 : i < cursor
      · rw [if_pos h1]; simp
      · rw [if_neg h1]; exact toFinal_ne_ship sl

theorem classifyItem_fst_ne_ship (order : List SlotType) (t3 : Bool) (cursor : Nat)
    (slot : Option SlotType) : (classifyItem order t3 cursor slot).1 ≠ FinalSlot.ship := by
  unfold classifyItem
  cases slot with
  | none => simp
  | some s =>
    cases h : order.findIdx? (fun x => decide (x = s)) with
    | none => simp [h]
    | some i =>
      simp only [h]
      by_cases h1 : i = cursor
      · rw [if_pos h1]; exact toFinal_ne_ship s
      · rw [if_neg h1]
        by_cases h2 : t3 = true ∧ s = SlotType.subsystem ∧ cursor < 5
        · rw [if_pos h2]; simp
        · rw [if_neg h2]
          by_cases h3 : cursor < i
          · rw [if_pos h3]; exact toFinal_ne_ship s
          · rw [if_neg h3]; simp

theorem procLine_lines (db : Db) (o : List SlotType) (t3 : Bool) (st : ParseState)
    (l : List Char) (st' : ParseState) (h : procLine db o t3 st l = Except.ok st') :
    ∃ add, st'.lines = st.lines ++ add ∧ ∀ pl ∈ add, pl.finalSlot ≠ FinalSlot.ship := by
  simp only [procLine] at h
  by_cases h1 : stripChars l = []
  · rw [if_pos h1] at h
    injection h with h2
    subst h2
    refine ⟨_, rfl, ?_⟩
    intro pl hpl
    rw [List.mem_singleton] at hpl
    subst hpl
    simp
  · rw [if_neg h1] at h
    by_cases h2 : bracketed (stripChars l) = true
    · rw [if_pos h2] at h
      injection h with h3
      subst h3
      refine ⟨_, rfl, ?_⟩
      intro pl hpl
      rw [List.mem_singleton] at hpl
      subst hpl
      exact markerClassify_fst_ne_ship o st.cursor (markerSlot (lowerChars (stripChars l)))
    · rw [if_neg h2] at h
      by_cases h3 : stripChars (splitQty (stripChars l)).1 = []
      · rw [if_pos h3] at h
        injection h with h4
        subst h4
        exact ⟨[], (List.append_nil st.lines).symm, by intro pl hpl; exact absurd hpl (by simp)⟩
      · rw [if_neg h3] at h
        cases hfn : findByName db (stripChars (splitQty (stripChars l)).1) with
        | none => simp only [hfn] at h; exact absurd h (by simp)
        | some t =>
          simp only [hfn] at h
          injection h with h5
          subst h5
          refine ⟨_, rfl, ?_⟩
          intro pl hpl
          rw [List.mem_singleton] at hpl
          subst hpl
          exact classifyItem_fst_ne_ship o t3 st.cursor t.slotType

theorem runLines_lines (db : Db) (o : List SlotType) (t3 : Bool) :
    ∀ (ls : List (List Char)) (st st' : ParseState),
      runLines db o t3 st ls = Except.ok st' →
      ∃ add, st'.lines = st.lines ++ add ∧ ∀ pl ∈ add, pl.finalSlot ≠ FinalSlot.ship := by
  intro ls
  induction ls with
  | nil =>
    intro st st' h
    simp only [runLines] at h
    injection h with h2
    subst h2
    exact ⟨[], (List.append_nil st.lines).symm, by intro pl hpl; exact absurd hpl (by simp)⟩
  | cons l ls ih =>
    intro st st' h
    simp only [runLines] at h
    cases hp : procLine db o t3 st l with
    | error e => simp only [hp] at h; exact absurd h (by simp)
    | ok st1 =>
      simp only [hp] at h
      obtain ⟨a1, ha1, hn1⟩ := procLine_lines db o t3 st l st1 hp
      obtain ⟨a2, ha2, hn2⟩ := ih st1 st' h
      refine ⟨a1 ++ a2, ?_, ?_⟩
      · rw [ha2, ha1, List.append_assoc]
      · intro pl hpl
        rcases List.mem_append.mp hpl with hh | hh
        · exact hn1 pl hh
        · exact hn2 pl hh

theorem afterHeader_ok (db : Db) (ship0 : EveType) (header : List Char)
    (rest : List (List Char)) (ship : EveType) (lines : List ParsedLine) (counter : Pool)
    (h : afterHeader db ship0 header rest = Except.ok (ship, lines, counter)) :
    ship = ship0 ∧ ∃ add, lines = hullLine header ship0 :: add ∧
      ∀ pl ∈ add, pl.finalSlot ≠ FinalSlot.ship := by
  unfold afterHeader at h
  cases hd : detectFirstSlot db rest with
  | error e => simp only [hd] at h; exact absurd h (by simp)
  | ok fs =>
    simp only [hd] at h
    cases hr : runLines db (if fs = some SlotType.low then eftOrderLow else eftOrderHigh)
        (decide (0 < ship0.subsystemSlots.getD 0)) (initState header ship0) rest with
    | error e => simp only [hr] at h; exact absurd h (by simp)
    | ok st =>
      simp only [hr] at h
      injection h with h2
      rw [Prod.mk.injEq, Prod.mk.injEq] at h2
      obtain ⟨a1, a2, a3⟩ := h2
      obtain ⟨add, hadd, hns⟩ := runLines_lines db _ _ rest (initState header ship0) st hr
      refine ⟨a1.symm, add, ?_, hns⟩
      rw [← a2, hadd]
      rfl

/-!
## Claim theorems for the parser
-/

/-- C7: whenever `parse_eft_fit` succeeds, the returned line list starts with
a line whose `final_slot` is `ship`, carrying the resolved hull's type id with
quantity 1, and no other line of the list has `final_slot = ship`. -/
theorem c7_single_ship_line_first (db : Db) (raw : List Char) (ship : EveType)
    (lines : List ParsedLine) (counter : Pool)
    (h : parse_eft_fit db raw = Except.ok (ship, lines, counter)) :
    ∃ hd rest, lines = hd :: rest ∧ hd.finalSlot = FinalSlot.ship ∧
      hd.typeId = some ship.typeId ∧ hd.quantity = 1 ∧
      ∀ pl ∈ rest, pl.finalSlot ≠ FinalSlot.ship := by
  simp only [parse_eft_fit] at h
  by_cases h0 : parseLinesOf raw = []
  · rw [if_pos h0] at h; exact absurd h (by simp)
  · rw [if_neg h0] at h
    cases hfb : firstNonBlank (parseLinesOf raw) with
    | none => simp only [hfb] at h; exact absurd h (by simp)
    | some pr =>
      obtain ⟨header, rest⟩ := pr
      simp only [hfb] at h
      cases hh : headerShipRaw header with
      | none => simp only [hh] at h; exact absurd h (by simp)
      | some shipRaw =>
        simp only [hh] at h
        by_cases hsr : stripChars shipRaw = []
        · rw [if_pos hsr] at h; exact absurd h (by simp)
        · rw [if_neg hsr] at h
          cases hfn : findByName db (stripChars (stripTags (stripChars shipRaw))) with
          | none => simp only [hfn] at h; exact absurd h (by simp)
          | some ship0 =>
            simp only [hfn] at h
            obtain ⟨hsp, add, hadd, hns⟩ :=
              afterHeader_ok db ship0 header rest ship lines counter h
            subst hsp
            exact ⟨hullLine header ship, add, hadd, rfl, rfl, rfl, hns⟩

theorem c7_witness :
    ∃ hd rest, exLines = hd :: rest ∧ hd.finalSlot = FinalSlot.ship ∧
      hd.typeId = some exShip.typeId ∧ hd.quantity = 1 ∧
      ∀ pl ∈ rest, pl.finalSlot ≠ FinalSlot.ship :=
  c7_single_ship_line_first exDb exRaw exShip exLines exCounter (by rfl)

/-- C8 counterexample: the claim's example is false on the code. Under the
traditional high-first order, a low-slot item listed after mid-slot items is a
forward jump into the not-yet-closed low section, so it keeps `final_slot =
low` — it is not demoted to cargo. -/
theorem c8_counterexample :
    parsedSlots (parse_eft_fit exDb c8Raw) =
      some [FinalSlot.ship, FinalSlot.mid, FinalSlot.low] ∧
    FinalSlot.low ≠ FinalSlot.cargo := by
  decide

/-- C8 amended: an item line whose slot type's section index in the detected
order is strictly below the current cursor — the special subsystem case on
subsystem-capable hulls aside — is classified `cargo` rather than its natural
slot; the example that witnesses this is a low-slot item listed after
mid-slot items under the LOW-first order (under high-first order such an item
is a forward jump and keeps slot `low`). -/
theorem c8_early_section_cargo (order : List SlotType) (isT3c : Bool)
    (cursor i : Nat) (slot : SlotType)
    (hidx : order.findIdx? (fun x => decide (x = slot)) = some i)
    (hlt : i < cursor)
    (hspec : ¬(isT3c = true ∧ slot = SlotType.subsystem ∧ cursor < 5)) :
    classifyItem order isT3c cursor (some slot) = (FinalSlot.cargo, cursor) := by
  unfold classifyItem
  simp only [hidx]
  rw [if_neg (Nat.ne_of_lt hlt), if_neg hspec, if_neg (Nat.lt_asymm hlt)]

theorem c8_witness :
    classifyItem eftOrderLow false 1 (some SlotType.low) = (FinalSlot.cargo, 1) :=
  c8_early_section_cargo eftOrderLow false 1 0 SlotType.low (by decide) (by decide) (by decide)

/-!
## Helper lemmas for the error-condition analysis of parse_eft_fit
-/

theorem dropWhile_head_false (p : Char → Bool) :
    ∀ (l : List Char) (c : Char) (t : List Char), l.dropWhile p = c :: t → p c = false := by
  intro l
  induction l with
  | nil => intro c t h; simp at h
  | cons a l ih =>
    intro c t h
    by_cases hp : p a = true
    · rw [List.dropWhile_cons_of_pos hp] at h
      exact ih c t h
    · rw [List.dropWhile_cons_of_neg hp] at h
      injection h with h1 h2
      subst h1
      exact eq_false_of_ne_true hp

theorem dropWhile_suffix_ex (p : Char → Bool) :
    ∀ (l : List Char), ∃ s, l = s ++ l.dropWhile p := by
  intro l
  induction l with
  | nil => exact ⟨[], rfl⟩
  | cons a l ih =>
    by_cases hp : p a = true
    · obtain ⟨s, hs⟩ := ih
      refine ⟨a :: s, ?_⟩
      rw [List.dropWhile_cons_of_pos hp, List.cons_append]
      exact congrArg (a :: ·) hs
    · exact ⟨[], by rw [List.dropWhile_cons_of_neg hp]; rfl⟩

theorem dropTrailing_pref (m : List Char) : ∃ t, dropTrailing m ++ t = m := by
  obtain ⟨s, hs⟩ := dropWhile_suffix_ex pySpace m.reverse
  refine ⟨s.reverse, ?_⟩
  unfold dropTrailing
  have h3 := congrArg List.reverse hs
  rw [List.reverse_reverse, List.reverse_append] at h3
  rw [← h3]

theorem strip_head_not_space (l : List Char) (c : Char) (t : List Char)
    (h : stripChars l = c :: t) : pySpace c = false := by
  unfold stripChars at h
  obtain ⟨t2, ht2⟩ := dropTrailing_pref (l.dropWhile pySpace)
  rw [h] at ht2
  exact dropWhile_head_false pySpace l c (t ++ t2) (by rw [← ht2, List.cons_append])

theorem stripChars_cons_ne_nil (c : Char) (m : List Char) (hc : pySpace c = false) :
    stripChars (c :: m) ≠ [] := by
  unfold stripChars
  rw [List.dropWhile_cons_of_neg (by rw [hc]; exact Bool.false_ne_true)]
  unfold dropTrailing
  intro hnil
  have h1 : (c :: m).reverse.dropWhile pySpace = [] := by
    have h2 := congrArg List.reverse hnil
    rw [List.reverse_reverse] at h2
    simpa using h2
  have h2 := List.dropWhile_eq_nil_iff.mp h1 c (by simp)
  rw [hc] at h2
  exact absurd h2 (by simp)

theorem qtySuffix_head (l : List Char) (n : Nat) (h : qtySuffix l = some n) :
    ∃ t, l = ' ' :: t := by
  unfold qtySuffix at h
  split at h
  · next ds => exact ⟨_, rfl⟩
  · exact absurd h (by simp)

theorem splitQty_fst_head (c : Char) (rest : List Char) (hc : pySpace c = false) :
    ∃ t, (splitQty (c :: rest)).1 = c :: t := by
  unfold splitQty
  cases hq : qtySuffix (c :: rest) with
  | some n =>
    obtain ⟨t, ht⟩ := qtySuffix_head (c :: rest) n hq
    injection ht with h1 h2
    rw [h1] at hc
    exact absurd hc (by simp [pySpace])
  | none =>
    exact ⟨(splitQty rest).1, by simp [hq]⟩

theorem leadingName_ne_nil (l : List Char) (h : stripChars l ≠ []) :
    stripChars (splitQty (stripChars l)).1 ≠ [] := by
  cases hsc : stripChars l with
  | nil => exact absurd hsc h
  | cons c t =>
    have hc := strip_head_not_space l c t hsc
    obtain ⟨t', ht'⟩ := splitQty_fst_head c t hc
    rw [ht']
    exact stripChars_cons_ne_nil c t' hc

theorem procLine_ok_of_good (db : Db) (o : List SlotType) (t3 : Bool) (st : ParseState)
    (l : List Char) (hb : badLine db l = false) :
    ∃ st', procLine db o t3 st l = Except.ok st' := by
  simp only [procLine]
  by_cases h1 : stripChars l = []
  · rw [if_pos h1]; exact ⟨_, rfl⟩
  · rw [if_neg h1]
    by_cases h2 : bracketed (stripChars l) = true
    · rw [if_pos h2]; exact ⟨_, rfl⟩
    · rw [if_neg h2]
      by_cases h3 : stripChars (splitQty (stripChars l)).1 = []
      · rw [if_pos h3]; exact ⟨_, rfl⟩
      · rw [if_neg h3]
        cases hfn : findByName db (stripChars (splitQty (stripChars l)).1) with
        | none =>
          exfalso
          unfold badLine at hb
          rw [hfn] at hb
          simp [h1, h2] at hb
        | some t =>
          exact ⟨_, rfl⟩

theorem procLine_error_of_bad (db : Db) (o : List SlotType) (t3 : Bool) (st : ParseState)
    (l : List Char) (hb : badLine db l = true) :
    procLine db o t3 st l = Except.error ("Unknown item in fit.".toList) := by
  unfold badLine at hb
  rw [Bool.and_eq_true, Bool.and_eq_true] at hb
  obtain ⟨⟨hb1, hb2⟩, hb3⟩ := hb
  have h1 : stripChars l ≠ [] := of_decide_eq_true hb1
  have h2 : bracketed (stripChars l) = false := by
    cases hh : bracketed (stripChars l) with
    | false => rfl
    | true => rw [hh] at hb2; exact absurd hb2 (by simp)
  have h3 : findByName db (stripChars (splitQty (stripChars l)).1) = none :=
    Option.isNone_iff_eq_none.mp hb3
  simp only [procLine]
  rw [if_neg h1, if_neg (by rw [h2]; exact Bool.false_ne_true),
    if_neg (leadingName_ne_nil l h1), h3]

theorem runLines_ok_iff (db : Db) (o : List SlotType) (t3 : Bool) :
    ∀ (ls : List (List Char)) (st : ParseState),
      (∃ st', runLines db o t3 st ls = Except.ok st') ↔ ∀ l ∈ ls, badLine db l = false := by
  intro ls
  induction ls with
  | nil =>
    intro st
    constructor
    · intro _ l hl; exact absurd hl (by simp)
    · intro _; exact ⟨st, rfl⟩
  | cons l ls ih =>
    intro st
    simp only [runLines]
    cases hp : procLine db o t3 st l with
    | error e =>
      have hbtrue : badLine db l = true := by
        cases hbb : badLine db l with
        | true => rfl
        | false =>
          obtain ⟨st1, hok⟩ := procLine_ok_of_good db o t3 st l hbb
          rw [hok] at hp
          exact absurd hp (by simp)
      constructor
      · rintro ⟨st', h⟩; exact absurd h (by simp)
      · intro hall
        have hfalse := hall l (List.mem_cons_self _ _)
        rw [hbtrue] at hfalse
        exact absurd hfalse (by simp)
    | ok st1 =>
      have hbfalse : badLine db l = false := by
        cases hbb : badLine db l with
        | false => rfl
        | true =>
          rw [procLine_error_of_bad db o t3 st l hbb] at hp
          exact absurd hp (by simp)
      constructor
      · intro hex l2 hl2
        rcases List.mem_cons.mp hl2 with heq | hmem
        · rw [heq]; exact hbfalse
        · exact ((ih st1).mp hex) l2 hmem
      · intro hall
        exact (ih st1).mpr (fun l2 hl2 => hall l2 (List.mem_cons_of_mem _ hl2))

theorem detectFirstSlot_err (db : Db) :
    ∀ (ls : List (List Char)) (e : List Char),
      detectFirstSlot db ls = Except.error e → ∃ l ∈ ls, badLine db l = true := by
  intro ls
  induction ls with
  | nil => intro e h; exact absurd h (by simp [detectFirstSlot])
  | cons l ls ih =>
    intro e h
    simp only [detectFirstSlot] at h
    by_cases h1 : stripChars l = []
    · rw [if_pos h1] at h
      obtain ⟨l2, hl2, hbb⟩ := ih e h
      exact ⟨l2, List.mem_cons_of_mem _ hl2, hbb⟩
    · rw [if_neg h1] at h
      by_cases h2 : bracketed (stripChars l) = true
      · rw [if_pos h2] at h
        obtain ⟨l2, hl2, hbb⟩ := ih e h
        exact ⟨l2, List.mem_cons_of_mem _ hl2, hbb⟩
      · rw [if_neg h2] at h
        by_cases h3 : stripChars (splitQty (stripChars l)).1 = []
        · rw [if_pos h3] at h
          obtain ⟨l2, hl2, hbb⟩ := ih e h
          exact ⟨l2, List.mem_cons_of_mem _ hl2, hbb⟩
        · rw [if_neg h3] at h
          cases hfn : findByName db (stripChars (splitQty (stripChars l)).1) with
          | none =>
            refine ⟨l, List.mem_cons_self _ _, ?_⟩
            unfold badLine
            rw [hfn]
            simp [h1, h2]
          | some t =>
            simp only [hfn] at h
            exact absurd h (by simp)

theorem afterHeader_err_iff (db : Db) (ship0 : EveType) (header : List Char)
    (rest : List (List Char)) :
    isErr (afterHeader db ship0 header rest) = true ↔ ∃ l ∈ rest, badLine db l = true := by
  unfold afterHeader
  cases hd : detectFirstSlot db rest with
  | error e =>
    simp only [hd, isErr]
    constructor
    · intro _; exact detectFirstSlot_err db rest e hd
    · intro _; trivial
  | ok fs =>
    simp only [hd]
    cases hr : runLines db (if fs = some SlotType.low then eftOrderLow else eftOrderHigh)
        (decide (0 < ship0.subsystemSlots.getD 0)) (initState header ship0) rest with
    | error e2 =>
      simp only [hr, isErr]
      constructor
      · intro _
        by_contra hno
        have hall : ∀ l ∈ rest, badLine db l = false := by
          intro l2 hl2
          cases hbb : badLine db l2 with
          | false => rfl
          | true => exact absurd ⟨l2, hl2, hbb⟩ hno
        obtain ⟨st', h'⟩ :=
          (runLines_ok_iff db (if fs = some SlotType.low then eftOrderLow else eftOrderHigh)
            (decide (0 < ship0.subsystemSlots.getD 0)) rest (initState header ship0)).mpr hall
        rw [h'] at hr
        exact absurd hr (by simp)
      · intro _; trivial
    | ok st =>
      simp only [hr, isErr]
      constructor
      · intro hfalse; exact absurd hfalse (by simp)
      · rintro ⟨l2, hl2, hbb⟩
        exfalso
        have hfalse :=
          (runLines_ok_iff db (if fs = some SlotType.low then eftOrderLow else eftOrderHigh)
            (decide (0 < ship0.subsystemSlots.getD 0)) rest (initState header ship0)).mp
            ⟨st, hr⟩ l2 hl2
        rw [hbb] at hfalse
        exact absurd hfalse (by simp)

/-- C6: `parse_eft_fit` fails (with no partial result — failure is a bare
`Except.error`) exactly when the text is empty or whitespace-only, the first
non-blank line does not match the header pattern, the captured ship name is
empty, the (tag-stripped) ship name does not resolve in the catalog, or some
later non-blank, non-bracketed line's leading item name fails to resolve in
the catalog; in particular there is never a silent skip of an unresolvable
item line. -/
theorem c6_parse_error_iff (db : Db) (raw : List Char) :
    isErr (parse_eft_fit db raw) = true ↔ parseFailsSpec db raw := by
  simp only [parse_eft_fit, parseFailsSpec]
  by_cases h0 : parseLinesOf raw = []
  · rw [if_pos h0, h0]
    simp [firstNonBlank, isErr]
  · rw [if_neg h0]
    cases hfb : firstNonBlank (parseLinesOf raw) with
    | none => simp [hfb, isErr]
    | some pr =>
      obtain ⟨header, rest⟩ := pr
      simp only [hfb]
      cases hh : headerShipRaw header with
      | none => simp [hh, isErr]
      | some shipRaw =>
        simp only [hh]
        by_cases hsr : stripChars shipRaw = []
        · rw [if_pos hsr]
          simp [hsr, isErr]
        · rw [if_neg hsr]
          cases hfn : findByName db (stripChars (stripTags (stripChars shipRaw))) with
          | none => simp [hfn, isErr, hsr]
          | some ship0 =>
            simp only [hfn]
            rw [afterHeader_err_iff db ship0 header rest]
            simp [hsr, hfn]

end Waitlist
